import Mathlib

/-!
Shallow embedding of the transaction-history exporter core
(`src/ports/solana_th_service.rs`, `src/domain/transaction_record.rs`).

Modelling conventions:
* `f64` amounts are modelled as rationals (`ℚ`), lamport balances as `Nat`.
* `OptionSerializer` is modelled as `Option`: every match in the embedded
  code path distinguishes only `Some(..)` from the rest, so `Skip` and
  `None` collapse to `none`.
* External collaborators enter as parameters: the Metaplex symbol lookup
  `get_token_symbol_2` (which only performs network reads) becomes a
  `resolver : String → Option String` argument, and the batch driver
  receives the list of signatures paired with each fetch outcome
  (`none` = transport error) instead of talking to the RPC client.
* Only the live pipeline is embedded: `fetch_transactions` calls
  `process_transaction_3`, which calls `calculate_balance_changes` and
  `classify_transaction_type`; the superseded `process_transaction` and
  `process_transaction_2` variants are dead code.
-/

/-- The `UiTokenAmount` payload: only the `ui_amount` field is read by the embedded code. -/
structure UiTokenAmount where
  ui_amount : Option ℚ
  deriving Repr, DecidableEq

/-- One pre- or post-token-balance snapshot entry. -/
structure UiTransactionTokenBalance where
  account_index : Nat
  mint : String
  owner : Option String
  ui_token_amount : UiTokenAmount
  deriving Repr, DecidableEq

/-- The transaction metadata fields read by the embedded code path. -/
structure UiTransactionStatusMeta where
  fee : Nat
  pre_balances : List Nat
  post_balances : List Nat
  pre_token_balances : Option (List UiTransactionTokenBalance)
  post_token_balances : Option (List UiTransactionTokenBalance)
  deriving Repr, DecidableEq

/-- The raw message: only `account_keys` is read by `process_transaction_3`. -/
structure UiRawMessage where
  account_keys : List String
  deriving Repr, DecidableEq

/-- Encoding shape of the fetched transaction, as far as the code matches it:
`Json` with a `Raw` message, `Json` with any other message kind
("Unsupported message format"), or a non-`Json` encoding
("Unsupported transaction encoding"). -/
inductive TxEncoding where
  | jsonRaw (message : UiRawMessage)
  | jsonParsed
  | notJson
  deriving Repr, DecidableEq

/-- A fetched transaction with its status metadata. -/
structure EncodedConfirmedTransactionWithStatusMeta where
  meta : Option UiTransactionStatusMeta
  transaction : TxEncoding
  block_time : Option Int
  deriving Repr, DecidableEq

/-- The output record (`src/domain/transaction_record.rs`). -/
structure TransactionRecord where
  date : String
  tx_hash : String
  tx_src : String
  tx_dest : String
  sent_amount : Option ℚ
  sent_currency : Option String
  received_amount : Option ℚ
  received_currency : Option String
  fee_amount : ℚ
  fee_currency : String
  deriving Repr, DecidableEq

/-- The lamports-per-SOL constant `1_000_000_000.0` inlined throughout the
source. -/
def SCALE : ℚ := 1000000000

/-- Date rendering (`format_date`): the source delegates calendar rendering to the external
chrono library; no claim concerns the rendered string, so the timestamp is
kept verbatim (the record's `date` field stays a function of
`block_time.unwrap_or(0)` exactly as in the source). -/
def format_date (timestamp : Int) : String := toString timestamp

/-- Embedding of `meta.pre_balances.iter().enumerate().find_map(|(index, b)|
message.account_keys.get(index).and_then(|key| if key == wallet
then Some(b) else None))`, written with an explicit running index. -/
def walletBalanceAux (keys : List String) (wallet : String) :
    List Nat → Nat → Option Nat
  | [], _ => none
  | b :: rest, i =>
    match keys[i]? with
    | some key =>
      if key = wallet then some b else walletBalanceAux keys wallet rest (i + 1)
    | none => walletBalanceAux keys wallet rest (i + 1)

/-- The first balance whose position in the account-key table holds the
wallet's key (the `find_map` calls in `calculate_balance_changes`). -/
def walletBalanceLookup (balances : List Nat) (keys : List String)
    (wallet : String) : Option Nat :=
  walletBalanceAux keys wallet balances 0

/-- The per-pair guard in the token loop of `calculate_balance_changes`:
`message.account_keys.iter().position(|key| key == wallet
&& pre.owner == Some(wallet) && pre.mint == post.mint)` bound with
`if let Some(account_index) = ...` (the index itself is never used). -/
def tokenPairCond (keys : List String) (wallet : String)
    (p : UiTransactionTokenBalance × UiTransactionTokenBalance) : Bool :=
  (keys.findIdx? fun key =>
    key == wallet && p.1.owner == some wallet && p.1.mint == p.2.mint).isSome

/-- One iteration of the token loop of `calculate_balance_changes`:
accumulate `post.ui_amount.unwrap_or(0.0) - pre.ui_amount.unwrap_or(0.0)`
and overwrite the remembered mint when the difference is non-zero. -/
def tokenStep (keys : List String) (wallet : String)
    (acc : ℚ × Option String)
    (p : UiTransactionTokenBalance × UiTransactionTokenBalance) :
    ℚ × Option String :=
  if tokenPairCond keys wallet p then
    let pre_amount := p.1.ui_token_amount.ui_amount.getD 0
    let post_amount := p.2.ui_token_amount.ui_amount.getD 0
    let difference := post_amount - pre_amount
    (acc.1 + difference, if difference ≠ 0 then some p.1.mint else acc.2)
  else acc

/-- Embedding of `calculate_balance_changes`: the SOL base change from the
first account position holding the wallet key, the token change folded over
the positionally zipped pre/post token-balance lists, and the unconditional
fee subtraction at the end.  (The unused `client` parameter of the source
is dropped.) -/
def calculate_balance_changes (meta : UiTransactionStatusMeta)
    (wallet : String) (message : UiRawMessage) : ℚ × ℚ × Option String :=
  let sol_base : ℚ :=
    match walletBalanceLookup meta.pre_balances message.account_keys wallet with
    | some pre_balance =>
      match walletBalanceLookup meta.post_balances message.account_keys wallet with
      | some post_balance => ((post_balance : ℚ) - (pre_balance : ℚ)) / SCALE
      | none => 0
    | none => 0
  let token : ℚ × Option String :=
    match meta.pre_token_balances, meta.post_token_balances with
    | some pre_token_balances, some post_token_balances =>
      (pre_token_balances.zip post_token_balances).foldl
        (tokenStep message.account_keys wallet) (0, none)
    | _, _ => (0, none)
  let fee : ℚ := (meta.fee : ℚ) / SCALE
  (sol_base - fee, token.1, token.2)

/-- Embedding of `classify_transaction_type`.  The source's guarded match
arms are grouped by pattern; within each pattern group the guards are
mutually exclusive, so the grouping preserves first-match semantics. -/
def classify_transaction_type (sol_difference token_difference : Option ℚ) :
    String :=
  match sol_difference, token_difference with
  | some sol, some token =>
    if sol > 0 ∧ token < 0 then "Token Swap"
    else if sol < 0 ∧ token > 0 then "Token Purchase"
    else "Unknown"
  | some sol, none =>
    if sol > 0 then "SOL Deposit"
    else if sol < 0 then "SOL Withdrawal"
    else "Unknown"
  | none, some token =>
    if token > 0 then "Token Deposit"
    else if token < 0 then "Token Withdrawal"
    else "Unknown"
  | none, none => "Unknown"

/-- The conversion `Some(x).filter(|&x| x.abs() > 0.0)` applied to each
delta before classification in `process_transaction_3`. -/
def toOptDelta (x : ℚ) : Option ℚ := if |x| > 0 then some x else none

/-- Embedding of `process_transaction_3`.  The classification result is
only logged in the source, so it does not flow into the record; the record
fields are built exactly as in the source.  `resolver` stands for
`get_token_symbol_2(client, ·)`. -/
def process_transaction_3 (tx_hash : String)
    (tx : EncodedConfirmedTransactionWithStatusMeta) (wallet : String)
    (resolver : String → Option String) :
    Except String (Option TransactionRecord) :=
  match tx.meta with
  | none => .error "Missing transaction metadata"
  | some meta =>
    match tx.transaction with
    | .jsonParsed => .error "Unsupported message format"
    | .notJson => .error "Unsupported transaction encoding"
    | .jsonRaw message =>
      let fee_amount : ℚ := (meta.fee : ℚ) / SCALE
      let changes := calculate_balance_changes meta wallet message
      let sol_change := changes.1
      let token_change := changes.2.1
      let token_mint := changes.2.2
      .ok (some
        { date := format_date (tx.block_time.getD 0)
          tx_hash := tx_hash
          tx_src := message.account_keys.getD 0 ""
          tx_dest := message.account_keys.getD 1 ""
          sent_amount :=
            if sol_change < 0 ∨ token_change < 0 then
              some |min sol_change token_change|
            else none
          sent_currency :=
            if sol_change < 0 then some "SOL"
            else if token_change < 0 then token_mint.bind resolver
            else none
          received_amount :=
            if sol_change > 0 ∨ token_change > 0 then
              some (max sol_change token_change)
            else none
          received_currency :=
            if sol_change > 0 then some "SOL"
            else if token_change > 0 then token_mint.bind resolver
            else none
          fee_amount := fee_amount
          fee_currency := "SOL" })

/-- What one signature contributes to the batch output: nothing on a
transport failure (`sig.2 = none`), nothing on a processing error or an
empty result, the record otherwise. -/
def stepSig (wallet : String) (resolver : String → Option String)
    (sig : String × Option EncodedConfirmedTransactionWithStatusMeta) :
    Option TransactionRecord :=
  match sig.2 with
  | none => none
  | some transaction =>
    match process_transaction_3 sig.1 transaction wallet resolver with
    | .ok r => r
    | .error _ => none

/-- The signature loop of `fetch_transactions`: push the record on
`Ok(Some(..))`, skip on `Ok(None)`, on a processing error and on a
transport error; increment the counter; break when
`operation_limit > 0 && index >= operation_limit`. -/
def fetchLoop (wallet : String) (resolver : String → Option String)
    (operation_limit : Nat) :
    List (String × Option EncodedConfirmedTransactionWithStatusMeta) →
    Nat → List TransactionRecord → List TransactionRecord
  | [], _, records => records
  | sig :: rest, index, records =>
    let records' :=
      match sig.2 with
      | some transaction =>
        match process_transaction_3 sig.1 transaction wallet resolver with
        | .ok (some tx_record) => records ++ [tx_record]
        | .ok none => records
        | .error _ => records
      | none => records
    if operation_limit > 0 ∧ index + 1 ≥ operation_limit then records'
    else fetchLoop wallet resolver operation_limit rest (index + 1) records'

/-- Embedding of `fetch_transactions`: the enumerated signatures (with each
fetch outcome) replace the RPC client, everything else follows the source
loop. -/
def fetch_transactions (wallet : String)
    (resolver : String → Option String) (operation_limit : Nat)
    (sigs : List (String × Option EncodedConfirmedTransactionWithStatusMeta)) :
    List TransactionRecord :=
  fetchLoop wallet resolver operation_limit sigs 0 []

/-- Modelled from the spec (§4.2 decision table), for comparison with
`classify_transaction_type`: the claimed category as a function of the two
raw deltas, with "None" read as "effectively zero magnitude". -/
def specClassify (native token : ℚ) : String :=
  if native > 0 ∧ token < 0 then "Token Swap"
  else if native > 0 ∧ token = 0 then "SOL Deposit"
  else if native < 0 ∧ token = 0 then "SOL Withdrawal"
  else if native = 0 ∧ token > 0 then "Token Deposit"
  else if native = 0 ∧ token < 0 then "Token Withdrawal"
  else if native < 0 ∧ token > 0 then "Token Purchase"
  else "Unknown"

/-- Modelled from the spec (§4.1 step 3), for comparison with the token
component of `calculate_balance_changes`: correlate each pre-entry owned by
the wallet with the post-entry matching on (mint, owner) and sum the
ui-amount differences. -/
def specTokenDelta (wallet : String)
    (pres posts : List UiTransactionTokenBalance) : ℚ :=
  pres.foldl
    (fun acc pre_entry =>
      if pre_entry.owner = some wallet then
        match posts.find? (fun post_entry =>
            post_entry.mint == pre_entry.mint &&
            post_entry.owner == pre_entry.owner) with
        | some post_entry =>
          acc + (post_entry.ui_token_amount.ui_amount.getD 0 -
                 pre_entry.ui_token_amount.ui_amount.getD 0)
        | none => acc
      else acc) 0

/-- The signed ui-amount difference of one positionally zipped token pair. -/
def tokenPairDiff
    (p : UiTransactionTokenBalance × UiTransactionTokenBalance) : ℚ :=
  p.2.ui_token_amount.ui_amount.getD 0 - p.1.ui_token_amount.ui_amount.getD 0

/-- Left-biased choice on options, used to state the "last non-zero wins"
characterisation of the remembered mint. -/
def orO {α : Type} (a b : Option α) : Option α :=
  match a with
  | some x => some x
  | none => b

/-- Positional wallet lookup: walk the key list and the balance list in
step, returning the balance aligned with the first key equal to the wallet.
Used to characterise `walletBalanceLookup`. -/
def pairedLookup (wallet : String) : List String → List Nat → Option Nat
  | _, [] => none
  | [], _ :: _ => none
  | key :: keys, b :: bs =>
    if key = wallet then some b else pairedLookup wallet keys bs

/-! ### Concrete fixtures used by individual claims -/

/-- Fixture (zero-delta transaction): the wallet at index 1 gains exactly
the fee, so both extracted deltas are zero. -/
def metaC1 : UiTransactionStatusMeta := ⟨5000, [10, 500], [10, 5500], none, none⟩

/-- Fixture: account-key table of the zero-delta transaction. -/
def msgC1 : UiRawMessage := ⟨["X", "W"]⟩

/-- Fixture: the zero-delta transaction. -/
def txC1 : EncodedConfirmedTransactionWithStatusMeta :=
  ⟨some metaC1, .jsonRaw msgC1, some 0⟩

/-- Fixture: pre-token balances holding wallet entries for mints A and B. -/
def presC2 : List UiTransactionTokenBalance :=
  [⟨0, "A", some "W", ⟨some 1⟩⟩, ⟨0, "B", some "W", ⟨some 5⟩⟩]

/-- Fixture: the same two wallet entries after the transaction, in swapped
list order (mint B first). -/
def postsC2 : List UiTransactionTokenBalance :=
  [⟨0, "B", some "W", ⟨some 7⟩⟩, ⟨0, "A", some "W", ⟨some 4⟩⟩]

/-- Fixture: metadata whose token-balance lists are `presC2`/`postsC2`. -/
def metaC2 : UiTransactionStatusMeta := ⟨0, [0], [0], some presC2, some postsC2⟩

/-- Fixture: account-key table containing the wallet. -/
def msgC2 : UiRawMessage := ⟨["W"]⟩

/-- Fixture: metadata of a transaction in which the wallet sends 6 units of
token M and the SOL delta is exactly zero (balance gain equals the fee). -/
def metaC6 : UiTransactionStatusMeta :=
  ⟨5000, [0], [5000], some [⟨0, "M", some "W", ⟨some 10⟩⟩],
    some [⟨0, "M", some "W", ⟨some 4⟩⟩]⟩

/-- Fixture: account-key table for the token-send transaction. -/
def msgC6 : UiRawMessage := ⟨["W"]⟩

/-- Fixture: the token-send transaction. -/
def txC6 : EncodedConfirmedTransactionWithStatusMeta :=
  ⟨some metaC6, .jsonRaw msgC6, some 0⟩

/-- Fixture: a well-formed transaction in which the wallet receives 2 SOL
(used around a failing signature in the batch witness). -/
def txC8 : EncodedConfirmedTransactionWithStatusMeta :=
  ⟨some ⟨0, [0], [2000000000], none, none⟩, .jsonRaw ⟨["W"]⟩, some 0⟩

/-! ### Characterisation of the wallet balance lookup -/

theorem pairedLookup_nil (wallet : String) (bs : List Nat) :
    pairedLookup wallet [] bs = none := by
  cases bs <;> rfl

theorem pairedLookup_of_not_mem (wallet : String) :
    ∀ (keys : List String) (bs : List Nat), wallet ∉ keys →
      pairedLookup wallet keys bs = none := by
  intro keys
  induction keys with
  | nil => intro bs _; exact pairedLookup_nil wallet bs
  | cons key ks ih =>
    intro bs h
    cases bs with
    | nil => rfl
    | cons b bs' =>
      have hk : ¬ key = wallet := by
        intro e
        exact h (by simp [e])
      simp only [pairedLookup, if_neg hk]
      exact ih bs' (fun hm => h (List.mem_cons_of_mem _ hm))

theorem pairedLookup_first (wallet : String) :
    ∀ (keys : List String) (bs : List Nat) (i : Nat),
      keys[i]? = some wallet →
      (∀ j, j < i → keys[j]? ≠ some wallet) →
      bs.length = keys.length →
      pairedLookup wallet keys bs = bs[i]? := by
  intro keys
  induction keys with
  | nil => intro bs i hi _ _; simp at hi
  | cons key ks ih =>
    intro bs i hi hfirst hlen
    cases bs with
    | nil => simp at hlen
    | cons b bs' =>
      by_cases hk : key = wallet
      · cases i with
        | zero => simp [pairedLookup, hk]
        | succ i' =>
          exact absurd (by simp [hk]) (hfirst 0 (Nat.succ_pos _))
      · cases i with
        | zero =>
          rw [List.getElem?_cons_zero] at hi
          exact absurd (Option.some_inj.mp hi) hk
        | succ i' =>
          simp only [pairedLookup, if_neg hk]
          have hi' : ks[i']? = some wallet := by simpa using hi
          have hfirst' : ∀ j, j < i' → ks[j]? ≠ some wallet := by
            intro j hj
            have := hfirst (j + 1) (Nat.succ_lt_succ hj)
            simpa using this
          have hlen' : bs'.length = ks.length := by simpa using hlen
          rw [ih bs' i' hi' hfirst' hlen']
          simp

theorem walletBalanceAux_eq_paired (keys : List String) (wallet : String) :
    ∀ (bs : List Nat) (j : Nat),
      walletBalanceAux keys wallet bs j = pairedLookup wallet (keys.drop j) bs := by
  intro bs
  induction bs with
  | nil => intro j; cases keys.drop j <;> rfl
  | cons b rest ih =>
    intro j
    cases hd : keys.drop j with
    | nil =>
      have hlen : keys.length ≤ j := List.drop_eq_nil_iff.mp hd
      have hget : keys[j]? = none := List.getElem?_eq_none hlen
      have hd' : keys.drop (j + 1) = [] :=
        List.drop_eq_nil_iff.mpr (Nat.le_succ_of_le hlen)
      simp only [walletBalanceAux, hget]
      rw [ih (j + 1), hd', pairedLookup_nil, pairedLookup_nil]
    | cons key ks' =>
      have hget : keys[j]? = some key := by
        have h0 := List.getElem?_drop keys j 0
        rw [hd] at h0
        simpa using h0.symm
      have hks' : keys.drop (j + 1) = ks' := by
        have h2 := List.drop_drop 1 j keys
        rw [hd] at h2
        simpa [Nat.add_comm] using h2.symm
      simp only [walletBalanceAux, hget]
      by_cases hk : key = wallet
      · simp [pairedLookup, hk]
      · rw [if_neg hk, ih (j + 1), hks']
        simp [pairedLookup, hk]

theorem walletBalanceLookup_eq_paired (balances : List Nat)
    (keys : List String) (wallet : String) :
    walletBalanceLookup balances keys wallet = pairedLookup wallet keys balances := by
  unfold walletBalanceLookup
  rw [walletBalanceAux_eq_paired keys wallet balances 0, List.drop_zero]

theorem walletBalanceLookup_of_not_mem (balances : List Nat)
    (keys : List String) (wallet : String) (h : wallet ∉ keys) :
    walletBalanceLookup balances keys wallet = none := by
  rw [walletBalanceLookup_eq_paired]
  exact pairedLookup_of_not_mem wallet keys balances h

theorem walletBalanceLookup_first (balances : List Nat) (keys : List String)
    (wallet : String) (i : Nat) (hi : keys[i]? = some wallet)
    (hfirst : ∀ j, j < i → keys[j]? ≠ some wallet)
    (hlen : balances.length = keys.length) :
    walletBalanceLookup balances keys wallet = balances[i]? := by
  rw [walletBalanceLookup_eq_paired]
  exact pairedLookup_first wallet keys balances i hi hfirst hlen

/-- C4: when the wallet occurs in the account-key table (at first index `i`)
and the balance arrays have the table's length (the RawTransaction
invariant), the extracted native delta is
`(post[i] - pre[i]) / SCALE - fee / SCALE`, the fee being subtracted
unconditionally. -/
theorem native_delta_first_index (meta : UiTransactionStatusMeta)
    (wallet : String) (message : UiRawMessage) (i : Nat)
    (hi : message.account_keys[i]? = some wallet)
    (hfirst : ∀ j, j < i → message.account_keys[j]? ≠ some wallet)
    (hpre : meta.pre_balances.length = message.account_keys.length)
    (hpost : meta.post_balances.length = message.account_keys.length) :
    (calculate_balance_changes meta wallet message).1 =
      ((meta.post_balances.getD i 0 : ℚ) - (meta.pre_balances.getD i 0 : ℚ)) / SCALE
        - (meta.fee : ℚ) / SCALE := by
  have hilt : i < message.account_keys.length := by
    by_contra hx
    push_neg at hx
    rw [List.getElem?_eq_none hx] at hi
    cases hi
  have h1 := walletBalanceLookup_first meta.pre_balances message.account_keys
    wallet i hi hfirst hpre
  have h2 := walletBalanceLookup_first meta.post_balances message.account_keys
    wallet i hi hfirst hpost
  have hp1 : meta.pre_balances[i]? = some (meta.pre_balances.getD i 0) := by
    rw [List.getD_eq_getElem?_getD]
    exact (List.getElem?_eq_getElem (hpre ▸ hilt)).trans (by
      rw [List.getElem?_eq_getElem (hpre ▸ hilt)]
      rfl)
  have hp2 : meta.post_balances[i]? = some (meta.post_balances.getD i 0) := by
    rw [List.getD_eq_getElem?_getD]
    exact (List.getElem?_eq_getElem (hpost ▸ hilt)).trans (by
      rw [List.getElem?_eq_getElem (hpost ▸ hilt)]
      rfl)
  simp only [calculate_balance_changes, h1, h2, hp1, hp2]

/-- Witness for C4 at a concrete transaction in which the wallet occurs at
indices 1 and 2: only index 1 (the first match) is read. -/
theorem native_delta_first_index_witness :
    ((["X", "W", "W"] : List String)[1]? = some "W") ∧
    (calculate_balance_changes ⟨50, [1, 100, 7], [1, 300, 7], none, none⟩
      "W" ⟨["X", "W", "W"]⟩).1 = ((300 : ℚ) - 100) / SCALE - 50 / SCALE := by
  refine ⟨by decide, ?_⟩
  have h := native_delta_first_index ⟨50, [1, 100, 7], [1, 300, 7], none, none⟩
    "W" ⟨["X", "W", "W"]⟩ 1 (by decide) (by decide) (by decide) (by decide)
  rw [h]
  norm_num

/-- C9: when the wallet occurs nowhere in the account-key table the native
delta is still `-(fee / SCALE)`: the fee is subtracted from a zero base, so
any positive fee yields a strictly negative delta. -/
theorem absent_wallet_native_delta (meta : UiTransactionStatusMeta)
    (wallet : String) (message : UiRawMessage)
    (h : wallet ∉ message.account_keys) :
    (calculate_balance_changes meta wallet message).1 = -((meta.fee : ℚ) / SCALE) ∧
    (0 < meta.fee → (calculate_balance_changes meta wallet message).1 < 0) := by
  have h1 := walletBalanceLookup_of_not_mem meta.pre_balances
    message.account_keys wallet h
  have hbase : (calculate_balance_changes meta wallet message).1 =
      -((meta.fee : ℚ) / SCALE) := by
    simp only [calculate_balance_changes, h1]
    ring
  refine ⟨hbase, fun hf => ?_⟩
  rw [hbase]
  have : (0 : ℚ) < (meta.fee : ℚ) / SCALE := by
    apply div_pos
    · exact_mod_cast hf
    · norm_num [SCALE]
  linarith

/-- Witness for C9 at a transaction whose key table lacks the wallet. -/
theorem absent_wallet_native_delta_witness :
    ("W" ∉ (["X"] : List String)) ∧
    (calculate_balance_changes ⟨5000, [7], [7], none, none⟩ "W" ⟨["X"]⟩).1 =
      -((5000 : ℚ) / SCALE) := by
  refine ⟨by decide, ?_⟩
  have h := absent_wallet_native_delta ⟨5000, [7], [7], none, none⟩ "W" ⟨["X"]⟩
    (by decide)
  rw [h.1]
  norm_num

/-! ### Characterisation of the token loop -/

theorem orO_none_right {α : Type} (a : Option α) : orO a none = a := by
  cases a <;> rfl

theorem orO_some_left {α : Type} (x : α) (b : Option α) :
    orO (some x) b = some x := rfl

theorem orO_assoc {α : Type} (a b c : Option α) :
    orO (orO a b) c = orO a (orO b c) := by
  cases a <;> rfl

theorem orO_map {α β : Type} (f : α → β) (a b : Option α) :
    (orO a b).map f = orO (a.map f) (b.map f) := by
  cases a <;> rfl

theorem getLast?_eq_orO {α : Type} :
    ∀ (l : List α) (a : α), (a :: l).getLast? = orO l.getLast? (some a) := by
  intro l
  induction l with
  | nil => intro a; rfl
  | cons b t ih =>
    intro a
    rw [List.getLast?_cons_cons, ih b, orO_assoc]
    rfl

theorem tokenFold_spec (keys : List String) (wallet : String) :
    ∀ (l : List (UiTransactionTokenBalance × UiTransactionTokenBalance))
      (q0 : ℚ) (o0 : Option String),
      l.foldl (tokenStep keys wallet) (q0, o0) =
        (q0 + ((l.filter (tokenPairCond keys wallet)).map tokenPairDiff).sum,
         orO (((l.filter (tokenPairCond keys wallet)).filter
              (fun p => decide (tokenPairDiff p ≠ 0))).getLast?.map
            (fun p => p.1.mint)) o0) := by
  intro l
  induction l with
  | nil =>
    intro q0 o0
    simp [orO]
  | cons p t ih =>
    intro q0 o0
    rw [List.foldl_cons]
    cases hc : tokenPairCond keys wallet p with
    | false =>
      have hstep : tokenStep keys wallet (q0, o0) p = (q0, o0) := by
        simp [tokenStep, hc]
      rw [hstep, ih q0 o0, List.filter_cons_of_neg (by simp [hc])]
    | true =>
      have hstep : tokenStep keys wallet (q0, o0) p =
          (q0 + tokenPairDiff p,
            if tokenPairDiff p ≠ 0 then some p.1.mint else o0) := by
        simp [tokenStep, hc, tokenPairDiff]
      rw [hstep, ih, List.filter_cons_of_pos (by simp [hc]), List.map_cons,
        List.sum_cons, ← add_assoc]
      by_cases hd : tokenPairDiff p = 0
      · rw [if_neg (fun hne => hne hd),
          List.filter_cons_of_neg (by simp [hd])]
      · rw [if_pos hd, List.filter_cons_of_pos (by simpa using hd)]
        simp only [Prod.mk.injEq]
        refine ⟨trivial, ?_⟩
        rw [getLast?_eq_orO, orO_map, orO_assoc]
        rfl

/-- C2 (amended): with both token-balance lists present, the token delta is
computed over the POSITIONALLY zipped pre/post lists, not by (mint, owner)
matching: a zipped pair contributes `post.ui_amount - pre.ui_amount`
exactly when the wallet occurs in the account-key table, the pre-entry's
owner is the wallet, and the two entries agree on the mint; the summed
result is one scalar, and `token_mint` is the mint of the last contributing
pair with a non-zero difference (`none` when there is none). -/
theorem token_delta_positional (meta : UiTransactionStatusMeta)
    (wallet : String) (message : UiRawMessage)
    (pres posts : List UiTransactionTokenBalance)
    (hpre : meta.pre_token_balances = some pres)
    (hpost : meta.post_token_balances = some posts) :
    (calculate_balance_changes meta wallet message).2.1 =
      (((pres.zip posts).filter (tokenPairCond message.account_keys wallet)).map
        tokenPairDiff).sum ∧
    (calculate_balance_changes meta wallet message).2.2 =
      ((((pres.zip posts).filter (tokenPairCond message.account_keys wallet)).filter
          (fun p => decide (tokenPairDiff p ≠ 0))).getLast?).map
        (fun p => p.1.mint) := by
  have hf := tokenFold_spec message.account_keys wallet (pres.zip posts) 0 none
  constructor
  · simp only [calculate_balance_changes, hpre, hpost, hf, zero_add]
  · simp only [calculate_balance_changes, hpre, hpost, hf, orO_none_right]

/-- Witness for the amended C2 at the concrete swapped-order fixture. -/
theorem token_delta_positional_witness :
    metaC2.pre_token_balances = some presC2 ∧
    (calculate_balance_changes metaC2 "W" msgC2).2.1 =
      (((presC2.zip postsC2).filter (tokenPairCond msgC2.account_keys "W")).map
        tokenPairDiff).sum := by
  refine ⟨rfl, ?_⟩
  exact (token_delta_positional metaC2 "W" msgC2 presC2 postsC2 rfl rfl).1

/-- C2 counterexample: on the swapped-order fixture the positional zip
pairs mismatched mints, every pair is skipped and the computed token delta
is `0`, while the (mint, owner)-correlated sum demanded by the claim is
`5`; the two disagree, so correlation is not by (mint, owner). -/
theorem token_correlation_counterexample :
    (calculate_balance_changes metaC2 "W" msgC2).2.1 = 0 ∧
    specTokenDelta "W" presC2 postsC2 = 5 ∧
    (calculate_balance_changes metaC2 "W" msgC2).2.1 ≠
      specTokenDelta "W" presC2 postsC2 := by
  have h1 : (calculate_balance_changes metaC2 "W" msgC2).2.1 = 0 := by
    norm_num +decide [calculate_balance_changes, metaC2, msgC2, presC2, postsC2,
      walletBalanceLookup, walletBalanceAux, tokenStep, tokenPairCond, SCALE,
      List.zip, List.zipWith, List.findIdx?]
  have h2 : specTokenDelta "W" presC2 postsC2 = 5 := by
    simp +decide [specTokenDelta, presC2, postsC2, List.find?]
    norm_num
  refine ⟨h1, h2, ?_⟩
  rw [h1, h2]
  norm_num

/-- C3: after the effectively-zero-to-None conversion used in
`process_transaction_3`, the classifier realises exactly the spec's
decision table; in particular `native>0 & token>0`, `native<0 & token<0`
and the all-zero case fall through to "Unknown". -/
theorem classify_matches_spec_table (native token : ℚ) :
    classify_transaction_type (toOptDelta native) (toOptDelta token) =
      specClassify native token := by
  rcases lt_trichotomy native 0 with hn | hn | hn <;>
    rcases lt_trichotomy token 0 with ht | ht | ht
  · simp [toOptDelta, classify_transaction_type, specClassify, abs_pos,
      hn, ht, hn.ne, ht.ne, asymm hn, asymm ht]
  · simp [toOptDelta, classify_transaction_type, specClassify, abs_pos,
      hn, ht, hn.ne, asymm hn]
  · simp [toOptDelta, classify_transaction_type, specClassify, abs_pos,
      hn, ht, hn.ne, ht.ne', asymm hn, asymm ht]
  · simp [toOptDelta, classify_transaction_type, specClassify, abs_pos,
      hn, ht, ht.ne, asymm ht]
  · simp [toOptDelta, classify_transaction_type, specClassify, abs_pos,
      hn, ht]
  · simp [toOptDelta, classify_transaction_type, specClassify, abs_pos,
      hn, ht, ht.ne', asymm ht]
  · simp [toOptDelta, classify_transaction_type, specClassify, abs_pos,
      hn, ht, hn.ne', ht.ne, asymm hn, asymm ht]
  · simp [toOptDelta, classify_transaction_type, specClassify, abs_pos,
      hn, ht, hn.ne', asymm hn]
  · simp [toOptDelta, classify_transaction_type, specClassify, abs_pos,
      hn, ht, hn.ne', ht.ne', asymm hn, asymm ht]

/-- C5: in every record built by `process_transaction_3`, `sent_amount` is
`|min(native_delta, token_delta)|` exactly when at least one delta is
negative (absent otherwise), `received_amount` is
`max(native_delta, token_delta)` exactly when at least one delta is
positive (absent otherwise), and `fee_amount = fee / SCALE` with
`fee_currency = "SOL"` unconditionally. -/
theorem record_amount_and_fee_fields (tx_hash : String)
    (meta : UiTransactionStatusMeta) (message : UiRawMessage)
    (bt : Option Int) (wallet : String) (resolver : String → Option String) :
    ∃ r, process_transaction_3 tx_hash ⟨some meta, .jsonRaw message, bt⟩
        wallet resolver = .ok (some r) ∧
      r.sent_amount =
        (if (calculate_balance_changes meta wallet message).1 < 0 ∨
            (calculate_balance_changes meta wallet message).2.1 < 0 then
          some |min (calculate_balance_changes meta wallet message).1
              (calculate_balance_changes meta wallet message).2.1|
        else none) ∧
      r.received_amount =
        (if (calculate_balance_changes meta wallet message).1 > 0 ∨
            (calculate_balance_changes meta wallet message).2.1 > 0 then
          some (max (calculate_balance_changes meta wallet message).1
              (calculate_balance_changes meta wallet message).2.1)
        else none) ∧
      r.fee_amount = (meta.fee : ℚ) / SCALE ∧
      r.fee_currency = "SOL" :=
  ⟨_, rfl, rfl, rfl, rfl, rfl⟩

/-- C10: every record built by `process_transaction_3` takes `tx_src` from
account-key index 0 and `tx_dest` from index 1 — regardless of which
accounts moved funds — defaulting to the empty string when the index is
absent. -/
theorem record_src_dest_from_indices (tx_hash : String)
    (meta : UiTransactionStatusMeta) (message : UiRawMessage)
    (bt : Option Int) (wallet : String) (resolver : String → Option String) :
    ∃ r, process_transaction_3 tx_hash ⟨some meta, .jsonRaw message, bt⟩
        wallet resolver = .ok (some r) ∧
      r.tx_src = message.account_keys.getD 0 "" ∧
      r.tx_dest = message.account_keys.getD 1 "" :=
  ⟨_, rfl, rfl, rfl⟩

/-- C6 (amended): when the symbol resolver fails on every mint the record
is still produced, and a currency label that would require a token symbol
(negative token delta with non-negative SOL delta for `sent_currency`,
positive token delta with non-positive SOL delta for `received_currency`)
is left absent, not replaced by a placeholder. -/
theorem symbol_failure_label_absent (tx_hash : String)
    (meta : UiTransactionStatusMeta) (message : UiRawMessage)
    (bt : Option Int) (wallet : String) (resolver : String → Option String)
    (hfail : ∀ m, resolver m = none) :
    ∃ r, process_transaction_3 tx_hash ⟨some meta, .jsonRaw message, bt⟩
        wallet resolver = .ok (some r) ∧
      ((calculate_balance_changes meta wallet message).2.1 < 0 →
        ¬ (calculate_balance_changes meta wallet message).1 < 0 →
        r.sent_currency = none) ∧
      ((calculate_balance_changes meta wallet message).2.1 > 0 →
        ¬ (calculate_balance_changes meta wallet message).1 > 0 →
        r.received_currency = none) := by
  refine ⟨_, rfl, fun htok hsol => ?_, fun htok hsol => ?_⟩
  · show (if (calculate_balance_changes meta wallet message).1 < 0 then
          some "SOL"
        else if (calculate_balance_changes meta wallet message).2.1 < 0 then
          ((calculate_balance_changes meta wallet message).2.2).bind resolver
        else none) = none
    rw [if_neg hsol, if_pos htok]
    cases hm : (calculate_balance_changes meta wallet message).2.2 with
    | none => rfl
    | some m => simp [hfail m]
  · show (if (calculate_balance_changes meta wallet message).1 > 0 then
          some "SOL"
        else if (calculate_balance_changes meta wallet message).2.1 > 0 then
          ((calculate_balance_changes meta wallet message).2.2).bind resolver
        else none) = none
    rw [if_neg hsol, if_pos htok]
    cases hm : (calculate_balance_changes meta wallet message).2.2 with
    | none => rfl
    | some m => simp [hfail m]

/-- Witness for the amended C6 at the token-send fixture with an
always-failing resolver. -/
theorem symbol_failure_label_absent_witness :
    (∀ m : String, (fun _ : String => (none : Option String)) m = none) ∧
    ∃ r, process_transaction_3 "h" ⟨some metaC6, .jsonRaw msgC6, some 0⟩
        "W" (fun _ => none) = .ok (some r) ∧
      ((calculate_balance_changes metaC6 "W" msgC6).2.1 < 0 →
        ¬ (calculate_balance_changes metaC6 "W" msgC6).1 < 0 →
        r.sent_currency = none) ∧
      ((calculate_balance_changes metaC6 "W" msgC6).2.1 > 0 →
        ¬ (calculate_balance_changes metaC6 "W" msgC6).1 > 0 →
        r.received_currency = none) :=
  ⟨fun _ => rfl,
    symbol_failure_label_absent "h" metaC6 msgC6 (some 0) "W"
      (fun _ => none) (fun _ => rfl)⟩

/-- C6 counterexample: on the token-send fixture with a failing resolver
the record is produced and the token delta is negative, so a token currency
label is required for `sent_currency`; yet the emitted record carries
`sent_currency = none` — the label is left absent, not replaced by a
literal placeholder string. -/
theorem symbol_fallback_counterexample :
    process_transaction_3 "h" txC6 "W" (fun _ => none) =
      .ok (some ⟨format_date 0, "h", "W", "", some 6, none, none, none,
        5000 / SCALE, "SOL"⟩) ∧
    ((⟨format_date 0, "h", "W", "", some 6, none, none, none,
        5000 / SCALE, "SOL"⟩ : TransactionRecord).sent_currency = none) ∧
    (calculate_balance_changes metaC6 "W" msgC6).2.1 < 0 := by
  have hc : calculate_balance_changes metaC6 "W" msgC6 = (0, -6, some "M") := by
    norm_num +decide [calculate_balance_changes, metaC6, msgC6,
      walletBalanceLookup, walletBalanceAux, tokenStep, tokenPairCond, SCALE,
      List.zip, List.zipWith, List.findIdx?, Prod.mk.injEq]
  refine ⟨?_, rfl, ?_⟩
  · simp only [process_transaction_3, txC6]
    rw [hc]
    norm_num +decide [msgC6, metaC6, SCALE]
  · rw [hc]
    norm_num

/-- C1: the code contradicts the claim.  On a transaction whose extracted
native and token deltas are both zero, `process_transaction_3` still
returns `Ok(Some(record))` — it never returns an empty result — and
`fetch_transactions` appends that record to the batch output. -/
theorem zero_delta_record_still_emitted :
    (calculate_balance_changes metaC1 "W" msgC1).1 = 0 ∧
    (calculate_balance_changes metaC1 "W" msgC1).2.1 = 0 ∧
    process_transaction_3 "h" txC1 "W" (fun _ => none) =
      .ok (some ⟨format_date 0, "h", "X", "W", none, none, none, none,
        5000 / SCALE, "SOL"⟩) ∧
    fetch_transactions "W" (fun _ => none) 0 [("h", some txC1)] =
      [⟨format_date 0, "h", "X", "W", none, none, none, none,
        5000 / SCALE, "SOL"⟩] := by
  have hc : calculate_balance_changes metaC1 "W" msgC1 = (0, 0, none) := by
    norm_num +decide [calculate_balance_changes, metaC1, msgC1,
      walletBalanceLookup, walletBalanceAux, SCALE, Prod.mk.injEq]
  have hp : process_transaction_3 "h" txC1 "W" (fun _ => none) =
      .ok (some ⟨format_date 0, "h", "X", "W", none, none, none, none,
        5000 / SCALE, "SOL"⟩) := by
    simp only [process_transaction_3, txC1]
    rw [hc]
    norm_num +decide [msgC1, metaC1, SCALE]
  refine ⟨?_, ?_, hp, ?_⟩
  · rw [hc]
  · rw [hc]
  · simp [fetch_transactions, fetchLoop, hp]

/-- The signature loop rewritten without its counter: with
`limit = 0 ∨ index < limit` on entry, the loop appends exactly the
per-signature contributions of the first `limit - index` signatures
(all of them when the limit is `0`). -/
theorem fetchLoop_characterisation (wallet : String)
    (resolver : String → Option String) (operation_limit : Nat) :
    ∀ (sigs : List (String × Option EncodedConfirmedTransactionWithStatusMeta))
      (index : Nat) (records : List TransactionRecord),
      operation_limit = 0 ∨ index < operation_limit →
      fetchLoop wallet resolver operation_limit sigs index records =
        records ++ (sigs.take (if operation_limit = 0 then sigs.length
            else operation_limit - index)).filterMap
          (stepSig wallet resolver) := by
  intro sigs
  induction sigs with
  | nil =>
    intro index records h
    simp [fetchLoop]
  | cons sig rest ih =>
    intro index records h
    have hrec : (match sig.2 with
        | some transaction =>
          match process_transaction_3 sig.1 transaction wallet resolver with
          | .ok (some tx_record) => records ++ [tx_record]
          | .ok none => records
          | .error _ => records
        | none => records) = records ++ (stepSig wallet resolver sig).toList := by
      cases hs : sig.2 with
      | none => simp [stepSig, hs]
      | some transaction =>
        cases hp : process_transaction_3 sig.1 transaction wallet resolver with
        | error e => simp [stepSig, hs, hp]
        | ok r => cases r <;> simp [stepSig, hs, hp]
    rw [fetchLoop, hrec]
    by_cases hstop : operation_limit > 0 ∧ index + 1 ≥ operation_limit
    · rw [if_pos hstop]
      have hl0 : ¬ operation_limit = 0 := by omega
      have hidx : index < operation_limit := by
        rcases h with h | h
        · omega
        · exact h
      have hone : operation_limit - index = 1 := by omega
      rw [if_neg hl0, hone, List.take_succ_cons, List.take_zero]
      cases hs : stepSig wallet resolver sig <;>
        simp [List.filterMap_cons, hs]
    · rw [if_neg hstop]
      have h' : operation_limit = 0 ∨ index + 1 < operation_limit := by omega
      rw [ih (index + 1) (records ++ (stepSig wallet resolver sig).toList) h']
      rcases Nat.eq_zero_or_pos operation_limit with hl | hl
      · subst hl
        simp only [if_pos rfl, List.length_cons, List.take_succ_cons,
          List.take_length, List.filterMap_cons, List.append_assoc]
        cases hs : stepSig wallet resolver sig <;> simp [hs]
      · have hl0 : ¬ operation_limit = 0 := by omega
        have hidx : index < operation_limit := by
          rcases h with h | h
          · omega
          · exact h
        obtain ⟨k, hk⟩ : ∃ k, operation_limit - index = k + 1 := ⟨operation_limit - index - 1, by omega⟩
        have hk' : operation_limit - (index + 1) = k := by omega
        rw [if_neg hl0, if_neg hl0, hk, hk', List.take_succ_cons,
          List.filterMap_cons, List.append_assoc]
        cases hs : stepSig wallet resolver sig <;> simp [hs]

/-- C7: with a positive operation limit `N` the batch loop processes
exactly the first `N` signatures (so it emits at most `N` records) and
returns their contributions in input order; a limit of `0` processes the
whole signature list. -/
theorem operation_limit_behaviour (wallet : String)
    (resolver : String → Option String) (N : Nat)
    (sigs : List (String × Option EncodedConfirmedTransactionWithStatusMeta))
    (h : 0 < N) :
    fetch_transactions wallet resolver N sigs =
      (sigs.take N).filterMap (stepSig wallet resolver) ∧
    (fetch_transactions wallet resolver N sigs).length ≤ N ∧
    fetch_transactions wallet resolver 0 sigs =
      sigs.filterMap (stepSig wallet resolver) := by
  have hN : fetch_transactions wallet resolver N sigs =
      (sigs.take N).filterMap (stepSig wallet resolver) := by
    have h1 := fetchLoop_characterisation wallet resolver N sigs 0 []
      (Or.inr h)
    rw [fetch_transactions, h1, if_neg (by omega), Nat.sub_zero,
      List.nil_append]
  have h0 : fetch_transactions wallet resolver 0 sigs =
      sigs.filterMap (stepSig wallet resolver) := by
    have h1 := fetchLoop_characterisation wallet resolver 0 sigs 0 []
      (Or.inl rfl)
    rw [fetch_transactions, h1, if_pos rfl, List.take_length,
      List.nil_append]
  refine ⟨hN, ?_, h0⟩
  rw [hN]
  calc ((sigs.take N).filterMap (stepSig wallet resolver)).length
      ≤ (sigs.take N).length := List.length_filterMap_le _ _
    _ ≤ N := by rw [List.length_take]; omega

/-- Witness for C7: a limit of `1` on a two-signature batch. -/
theorem operation_limit_behaviour_witness :
    (0 < 1) ∧
    (fetch_transactions "W" (fun _ => none) 1
      [("a", none), ("b", none)]).length ≤ 1 :=
  ⟨Nat.one_pos,
    (operation_limit_behaviour "W" (fun _ => none) 1
      [("a", none), ("b", none)] Nat.one_pos).2.1⟩

/-- C8: a signature that fails — transport error on fetch (`none`),
missing metadata, or an unsupported encoding — contributes no record and
does not disturb the rest of the batch: the unbounded run over
`xs ++ bad :: ys` equals the run over `xs` followed by the run over `ys`. -/
theorem per_signature_failure_isolated (wallet : String)
    (resolver : String → Option String)
    (xs ys : List (String × Option EncodedConfirmedTransactionWithStatusMeta))
    (bad : String × Option EncodedConfirmedTransactionWithStatusMeta)
    (h : bad.2 = none ∨ ∃ tx, bad.2 = some tx ∧
        (tx.meta = none ∨ tx.transaction = TxEncoding.jsonParsed ∨
          tx.transaction = TxEncoding.notJson)) :
    fetch_transactions wallet resolver 0 (xs ++ bad :: ys) =
      fetch_transactions wallet resolver 0 xs ++
        fetch_transactions wallet resolver 0 ys := by
  have hstep : stepSig wallet resolver bad = none := by
    rcases h with h | ⟨tx, htx, hbad⟩
    · simp [stepSig, h]
    · rcases hbad with hm | he | he
      · simp [stepSig, htx, process_transaction_3, hm]
      · cases hmm : tx.meta with
        | none => simp [stepSig, htx, process_transaction_3, hmm]
        | some m => simp [stepSig, htx, process_transaction_3, hmm, he]
      · cases hmm : tx.meta with
        | none => simp [stepSig, htx, process_transaction_3, hmm]
        | some m => simp [stepSig, htx, process_transaction_3, hmm, he]
  have hfetch : ∀ l, fetch_transactions wallet resolver 0 l =
      l.filterMap (stepSig wallet resolver) := by
    intro l
    have h1 := fetchLoop_characterisation wallet resolver 0 l 0 [] (Or.inl rfl)
    rw [fetch_transactions, h1, if_pos rfl, List.take_length,
      List.nil_append]
  rw [hfetch, hfetch, hfetch, List.filterMap_append, List.filterMap_cons,
    hstep]

/-- Witness for C8: a transport failure between two well-formed
signatures. -/
theorem per_signature_failure_isolated_witness :
    ((("b", none) :
        String × Option EncodedConfirmedTransactionWithStatusMeta).2 =
      none) ∧
    fetch_transactions "W" (fun _ => none) 0
        ([("g", some txC8)] ++ ("b", none) :: [("g2", some txC8)]) =
      fetch_transactions "W" (fun _ => none) 0 [("g", some txC8)] ++
        fetch_transactions "W" (fun _ => none) 0 [("g2", some txC8)] :=
  ⟨rfl,
    per_signature_failure_isolated "W" (fun _ => none)
      [("g", some txC8)] [("g2", some txC8)] ("b", none) (Or.inl rfl)⟩
